import Mathlib

/-!
Verification of the batch orchestration engine of `arxiv_hydra.py`
(profile runner, config merger, keyword normalizer, batch aggregator,
summary notifier) through a shallow embedding in Lean.

Python strings are modelled as Lean `String` (a list of characters);
Python `str.strip()` / `str.replace()` are re-implemented below on the
character list so that every definition is executable and provable.
External collaborators (file system, YAML parser, retrieval service,
ranker, table-sync service, notification transport) are modelled as
components of an explicit `World` record; a collaborator call that may
raise an exception is modelled with `Except String`.
-/

namespace ArxivHydra

/-! ## Python string primitives -/

/-- Character-list core of Python `str.strip()` with no argument:
remove leading and trailing whitespace. -/
def trimList (l : List Char) : List Char :=
  ((l.dropWhile Char.isWhitespace).reverse.dropWhile Char.isWhitespace).reverse

/-- Python `s.strip()`. -/
def pyStrip (s : String) : String :=
  String.mk (trimList s.data)

/-- Character-list core of Python `str.replace(old, new)`: replace every
non-overlapping occurrence of `old`, scanning left to right.  Structural
recursion on a fuel argument (one unit per consumed character, so
`fuel = l.length` suffices; each replacement consumes at least one
character).  (All call sites in the source use a non-empty `old`; for
`old = []` this copies the input unchanged.) -/
def pyReplaceCore (old new : List Char) : Nat → List Char → List Char
  | _, [] => []
  | 0, l => l
  | fuel + 1, c :: rest =>
    if old ≠ [] ∧ old.isPrefixOf (c :: rest) = true then
      new ++ pyReplaceCore old new fuel ((c :: rest).drop old.length)
    else
      c :: pyReplaceCore old new fuel rest

/-- Python `s.replace(old, new)`. -/
def pyReplace (s old new : String) : String :=
  String.mk (pyReplaceCore old.data new.data s.data.length s.data)

/-- Python `s.startswith("#")` (the only `startswith` used by the source):
true iff the first character is `#`. -/
def startsWithHash (s : String) : Bool :=
  s.data.head? = some '#'

/-! ## Keyword Normalizer (`_filter_keywords`) -/

/-- Loop body of `_filter_keywords`: for each keyword, skip it when it is
empty or all-whitespace (`not keyword or not keyword.strip()`), skip it
when the stripped form starts with `#`, otherwise keep the stripped form. -/
def filterKeywordsLoop : List String → List String
  | [] => []
  | k :: rest =>
    if k = "" ∨ pyStrip k = "" then
      filterKeywordsLoop rest
    else if startsWithHash (pyStrip k) then
      filterKeywordsLoop rest
    else
      pyStrip k :: filterKeywordsLoop rest

/-- Python `_filter_keywords(keywords)`: the `if not keywords: return []` guard
followed by the filtering loop.  An absent (`None`) input is modelled by
the caller passing `[]` (see `asStrList`, which sends non-lists to `[]`). -/
def filterKeywords (keywords : List String) : List String :=
  if keywords = [] then [] else filterKeywordsLoop keywords

/-! ## Configuration documents

`Val` models an OmegaConf configuration node (the result of
`OmegaConf.create` on YAML data): a scalar, `None`, a mapping or a list.
Mappings are association lists in document order; Python `dict` semantics
(update in place, append new keys) is implemented by `pySetKey`. -/

inductive Val where
  | vstr : String → Val
  | vint : Int → Val
  | vflt : Rat → Val
  | vbool : Bool → Val
  | vnull : Val
  | vdict : List (String × Val) → Val
  | vlist : List Val → Val

/-- Assoc-list lookup: first binding of key `k` (Python `dict` access). -/
def pyGet {α : Type} : List (String × α) → String → Option α
  | [], _ => none
  | (k', v) :: rest, k => if k' = k then some v else pyGet rest k

/-- Python `dict` assignment `d[k] = v`: update the (unique) binding in
place, append at the end when the key is new. -/
def pySetKey {α : Type} : List (String × α) → String → α → List (String × α)
  | [], k, v => [(k, v)]
  | (k', v') :: rest, k, v =>
    if k' = k then (k', v) :: rest else (k', v') :: pySetKey rest k v

/-- OmegaConf attribute/`get` lookup on a node: only mappings have keys. -/
def Val.getKey : Val → String → Option Val
  | .vdict l, k => pyGet l k
  | _, _ => none

/-- OmegaConf `hasattr(cfg, k)`: in (default) non-struct mode, attribute
access on a missing key raises `ConfigAttributeError`, so `hasattr` is
true exactly when the key is present in a mapping node. -/
def Val.hasKey (v : Val) (k : String) : Bool :=
  (v.getKey k).isSome

/-- OmegaConf `cfg.get(k, default)`. -/
def Val.getD (v : Val) (k : String) (d : Val) : Val :=
  (v.getKey k).getD d

/-- Python truthiness of a configuration value. -/
def Val.truthy : Val → Bool
  | .vstr s => s ≠ ""
  | .vint n => n ≠ 0
  | .vflt q => q ≠ 0
  | .vbool b => b
  | .vnull => false
  | .vdict l => !l.isEmpty
  | .vlist l => !l.isEmpty

/-- Set key `k` on a mapping node (Python `merged_cfg[k] = v` /
`merged_cfg.k = v`); non-mapping nodes are returned unchanged (the source
only assigns on mapping nodes). -/
def Val.setKey : Val → String → Val → Val
  | .vdict l, k, v => .vdict (pySetKey l k v)
  | w, _, _ => w

/-- The string stored at key `k` of a mapping, or `d` when the key is
absent or `None`-like (configuration values used as strings by the source
are modelled as string scalars). -/
def Val.getStrD (v : Val) (k : String) (d : String) : String :=
  match v.getKey k with
  | some (.vstr s) => s
  | some _ => ""
  | none => d

/-- Extract a Python keyword list (a YAML list of strings) from a node;
a missing/`None`/non-list node yields `[]` (matching the falsy guard in
`_filter_keywords`); non-string entries are out of model. -/
def Val.asStrList : Val → List String
  | .vlist l => l.filterMap fun x => match x with | .vstr s => some s | _ => none
  | _ => []

/-! ## `OmegaConf.merge`

Recursive key-wise merge: when both values at a key are mappings they are
merged recursively, otherwise the override value replaces the base value;
keys only in the base are kept, keys only in the override are appended.
Lists and scalars are replaced by the override. -/

mutual

def omegaMergeVal : Val → Val → Val
  | .vdict b, .vdict o => .vdict (omegaMergeEntries b o)
  | _, o => o

def omegaMergeEntries : List (String × Val) → List (String × Val) → List (String × Val)
  | b, [] => b
  | b, (k, v) :: rest =>
    let b' := match pyGet b k with
      | some bv => pySetKey b k (omegaMergeVal bv v)
      | none => pySetKey b k v
    omegaMergeEntries b' rest

end

/-- The legacy `*_config` sections handled by the loop at the end of
`merge_configs`, in the source's iteration order. -/
def configMappings : List (String × String) :=
  [("intelligent_matching_config", "intelligent_matching"),
   ("download_config", "download"),
   ("display_config", "display"),
   ("output_config", "output")]

/-- One iteration of the `for config_key, global_key in config_mappings`
loop of `merge_configs`. -/
def legacyStep (keyword_cfg : Val) (merged : Val) (p : String × String) : Val :=
  match keyword_cfg.getKey p.1 with
  | some ov =>
    let merged := if merged.hasKey p.2 then merged else merged.setKey p.2 (.vdict [])
    merged.setKey p.2 (omegaMergeVal (merged.getD p.2 (.vdict [])) ov)
  | none => merged

/-- Embedding of `merge_configs(global_cfg, keyword_cfg)`.  The read of
`merged_cfg.search` raises `ConfigAttributeError` when the override has a
`search_config` section but the merged document has no `search` key; this
is the only raising path, modelled with `Except`. -/
def merge_configs (global_cfg keyword_cfg : Val) : Except String Val :=
  let merged := omegaMergeVal global_cfg keyword_cfg
  let step1 : Except String Val :=
    match keyword_cfg.getKey "search_config" with
    | some sc =>
      match merged.getKey "search" with
      | none => .error "ConfigAttributeError: search"
      | some s => .ok (merged.setKey "search" (omegaMergeVal s sc))
    | none => .ok merged
  step1.map fun m => configMappings.foldl (legacyStep keyword_cfg) m

/-! ## Well-formed documents

Python dictionaries cannot repeat a key; `Val.wf` states that every
mapping in a document binds pairwise-distinct keys. -/

mutual

def Val.wf : Val → Bool
  | .vdict l => entriesWF l
  | .vlist l => listWF l
  | _ => true

def entriesWF : List (String × Val) → Bool
  | [] => true
  | (k, v) :: rest => (pyGet rest k).isNone && Val.wf v && entriesWF rest

def listWF : List Val → Bool
  | [] => true
  | v :: rest => Val.wf v && listWF rest

end

/-- Pairwise-distinct keys of an association list (each key does not recur
in the remainder). -/
def keysDistinct : List (String × Val) → Bool
  | [] => true
  | (k, _) :: rest => (pyGet rest k).isNone && keysDistinct rest

/-- Pairwise-distinct keys at the top level of a mapping node only
(non-mappings vacuously hold). -/
def Val.topDistinct : Val → Bool
  | .vdict l => keysDistinct l
  | _ => true

/-- Is the node a mapping? -/
def Val.isDict : Val → Bool
  | .vdict _ => true
  | _ => false

/-- The integer scalar at `v[k1][k2]`, when present (used to separate
concrete merge results). -/
def Val.intAt (v : Val) (k1 k2 : String) : Option Int :=
  match (v.getD k1 .vnull).getKey k2 with
  | some (.vint n) => some n
  | _ => none

/-! ## Profile Runner (`process_single_config`)

Papers are opaque to the orchestration layer and are modelled by `Nat`
identifiers.  The `World` record carries the outcome of every external
collaborator call of one runner invocation; `Except String` models a call
that may raise. -/

/-- Result of `sync_papers_to_feishu` (Python value): an `int` count, a
legacy `bool`, or any other object. -/
inductive SyncRet where
  | int : Int → SyncRet
  | bool : Bool → SyncRet
  | other : SyncRet
  deriving DecidableEq, Repr

/-- Python `isinstance(x, int)`: `bool` is a subclass of `int`, so `True`
and `False` satisfy the test. -/
def pyIsInstanceInt : SyncRet → Bool
  | .int _ => true
  | .bool _ => true
  | .other => false

/-- The integer a Python int-like value stands for (`True == 1`,
`False == 0`); `other` is never consulted under `pyIsInstanceInt`. -/
def pyIntValue : SyncRet → Int
  | .int n => n
  | .bool b => if b then 1 else 0
  | .other => 0

/-- Observable actions of the sync step on shared process state: the
`BATCH_MODE` environment toggle and the sync collaborator call. -/
inductive Event where
  | setBatchMode : Event
  | syncCall : Event
  | clearBatchMode : Event
  deriving DecidableEq, Repr

/-- Replay the environment events over an initial `BATCH_MODE` flag
(`os.environ["BATCH_MODE"] = "1"` sets it, `os.environ.pop` clears it). -/
def replayBatchMode (init : Bool) : List Event → Bool
  | [] => init
  | .setBatchMode :: rest => replayBatchMode true rest
  | .syncCall :: rest => replayBatchMode init rest
  | .clearBatchMode :: rest => replayBatchMode false rest

/-- Outcomes of the external collaborators for one runner invocation. -/
structure World where
  fileExists : String → Bool
  loadYaml : Except String Val
  recentPapers : Except String (List Nat)
  dateRangePapers : Except String (List Nat)
  rankOutcome : Except String (List Nat × List Nat)
  feishuAvailable : Bool
  syncOutcome : Except String SyncRet

/-- The result dictionary returned by `process_single_config`. -/
structure ProfileResult where
  config_name : String
  success : Bool
  error : Option String
  new_papers : Int
  total_papers : Nat
  research_area : String
  table_name : String
  ranked_papers : List Nat
  deriving DecidableEq, Repr

/-- The base configuration created inside `process_single_config`
(lines 80–88 of the source). -/
def baseCfg : Val :=
  .vdict
    [("search", .vdict
        [("days", .vint 7), ("max_results", .vint 300), ("max_display", .vint 10),
         ("min_score", .vflt (1/10)), ("field", .vstr "all")]),
     ("download", .vdict
        [("enabled", .vbool false), ("max_downloads", .vint 10),
         ("download_dir", .vstr "downloads")]),
     ("intelligent_matching", .vdict
        [("enabled", .vbool false),
         ("score_weights", .vdict [("base", .vflt 1), ("semantic", .vflt (3/10))])]),
     ("display", .vdict
        [("show_ranking", .vbool true), ("show_scores", .vbool true),
         ("show_breakdown", .vbool false), ("stats", .vbool true)]),
     ("output", .vdict
        [("save", .vbool true), ("save_keywords", .vbool false),
         ("include_scores", .vbool true), ("format", .vstr "markdown")])]

/-- Output of `load_keywords_from_config`. -/
structure Keywords where
  interest : List String
  exclude : List String
  rawInterest : List String
  requiredCfg : Val

/-- Embedding of `load_keywords_from_config(cfg)`: keyword lists come from the
`keywords` section when present, else from the root; both lists are passed
through `_filter_keywords`. -/
def load_keywords_from_config (cfg : Val) : Keywords :=
  let rawI :=
    if cfg.hasKey "keywords" then
      (cfg.getD "keywords" .vnull).getD "interest_keywords" (.vlist [])
    else cfg.getD "interest_keywords" (.vlist [])
  let rawE :=
    if cfg.hasKey "keywords" then
      (cfg.getD "keywords" .vnull).getD "exclude_keywords" (.vlist [])
    else cfg.getD "exclude_keywords" (.vlist [])
  { interest := filterKeywords rawI.asStrList
    exclude := filterKeywords rawE.asStrList
    rawInterest := rawI.asStrList
    requiredCfg := cfg.getD "required_keywords" (.vdict []) }

/-- Expression `final_cfg.get("user_profile", {}).get("research_area",
config_name.replace("sync_", ""))`. -/
def researchAreaOf (final_cfg : Val) (config_name : String) : String :=
  (final_cfg.getD "user_profile" (.vdict [])).getStrD "research_area"
    (pyReplace config_name "sync_" "")

/-- Expression `final_cfg.get("user_profile", {}).get("name", "").replace("研究员", "")
+ "论文表"` (the variant without `.strip()`, lines 126 and 156). -/
def tableNameNoStrip (final_cfg : Val) : String :=
  pyReplace ((final_cfg.getD "user_profile" (.vdict [])).getStrD "name" "") "研究员" ""
    ++ "论文表"

/-- The variant with `.strip()` before the suffix (lines 212 and 223). -/
def tableNameStripped (final_cfg : Val) : String :=
  pyStrip (pyReplace ((final_cfg.getD "user_profile" (.vdict [])).getStrD "name" "")
      "研究员" "")
    ++ "论文表"

/-- The failure dictionary built by the outer `except` handler of
`process_single_config` (lines 229–238). -/
def outerFailureResult (config_name : String) (e : String) : ProfileResult :=
  { config_name := config_name, success := false, error := some e,
    new_papers := 0, total_papers := 0,
    research_area := pyReplace config_name "sync_" "",
    table_name := pyReplace config_name "sync_" "" ++ "论文表",
    ranked_papers := [] }

/-- Lines 147–225 of `process_single_config`: the zero-paper early return,
the ranking branch with the guarded sync step (environment toggle around
the collaborator call, `try`/`except`/`finally`), and the final result
dictionaries. -/
def afterRetrieval (w : World) (config_name : String) (final_cfg : Val)
    (kw : Keywords) (papers : List Nat) : ProfileResult × List Event :=
  if papers = [] then
    ({ config_name := config_name, success := true, error := none,
       new_papers := 0, total_papers := 0,
       research_area := researchAreaOf final_cfg config_name,
       table_name := tableNameNoStrip final_cfg, ranked_papers := [] }, [])
  else if kw.interest ≠ [] ∨ kw.exclude ≠ [] then
    match w.rankOutcome with
    | .error e => (outerFailureResult config_name e, [])
    | .ok (ranked_papers, _excluded) =>
      let step : Int × List Event :=
        if ranked_papers ≠ [] ∧ w.feishuAvailable = true then
          -- os.environ["BATCH_MODE"] = "1"; try: sync; except: 0; finally: pop
          match w.syncOutcome with
          | .ok sync_result =>
            (if pyIsInstanceInt sync_result then pyIntValue sync_result
             else if sync_result = .bool true then 0
             else 0,
             [.setBatchMode, .syncCall, .clearBatchMode])
          | .error _ => (0, [.setBatchMode, .syncCall, .clearBatchMode])
        else (0, [])
      ({ config_name := config_name, success := true, error := none,
         new_papers := max step.1 0,
         total_papers := ranked_papers.length,
         research_area := researchAreaOf final_cfg config_name,
         table_name := tableNameStripped final_cfg,
         ranked_papers := ranked_papers.take 1 }, step.2)
  else
    ({ config_name := config_name, success := true, error := none,
       new_papers := 0, total_papers := papers.length,
       research_area := researchAreaOf final_cfg config_name,
       table_name := tableNameStripped final_cfg, ranked_papers := [] }, [])

/-- Lines 78–91: an extended-schema document (probed for `search_config`
or `user_profile`) is merged over the base defaults; a legacy document is
used as-is. -/
def effectiveConfig (cfg : Val) : Except String Val :=
  if cfg.hasKey "search_config" || cfg.hasKey "user_profile" then
    merge_configs baseCfg cfg
  else .ok cfg

/-- Embedding of `process_single_config(config_name)` under collaborator outcomes `w`,
returning the result dictionary together with the trace of environment
and sync events. -/
def process_single_config (w : World) (config_name : String) :
    ProfileResult × List Event :=
  let config_path := "conf/" ++ config_name ++ ".yaml"
  if w.fileExists config_path = false then
    ({ config_name := config_name, success := false,
       error := some ("配置文件不存在: " ++ config_path),
       new_papers := 0, total_papers := 0, research_area := "",
       table_name := "", ranked_papers := [] }, [])
  else
    match w.loadYaml with
    | .error e => (outerFailureResult config_name e, [])
    | .ok cfg =>
      match effectiveConfig cfg with
      | .error e => (outerFailureResult config_name e, [])
      | .ok final_cfg =>
        let kw := load_keywords_from_config final_cfg
        let search_cfg := final_cfg.getD "search" (.vdict [])
        let date_range_cfg := search_cfg.getD "date_range" (.vdict [])
        if (date_range_cfg.getD "enabled" (.vbool false)).truthy then
          let start_date := date_range_cfg.getStrD "start_date" ""
          if start_date = "" then
            ({ config_name := config_name, success := false,
               error := some "日期范围搜索需要指定开始日期",
               new_papers := 0, total_papers := 0,
               research_area := researchAreaOf final_cfg config_name,
               table_name := tableNameNoStrip final_cfg,
               ranked_papers := [] }, [])
          else
            match w.dateRangePapers with
            | .error e => (outerFailureResult config_name e, [])
            | .ok papers => afterRetrieval w config_name final_cfg kw papers
        else
          match w.recentPapers with
          | .error e => (outerFailureResult config_name e, [])
          | .ok papers => afterRetrieval w config_name final_cfg kw papers

/-! ## Batch Aggregator (`process_all_configs`) -/

/-- Loop state of `process_all_configs`: results so far, running totals,
and the list of profiles handed to the runner (in call order). -/
structure BatchAcc where
  all_results : List ProfileResult
  total_new_papers : Int
  successful_configs : Nat
  runnerLog : List String
  deriving Repr

/-- One iteration of the `for config_name in sync_configs` loop. -/
def batchStep (runner : String → ProfileResult) (acc : BatchAcc)
    (config_name : String) : BatchAcc :=
  let result := runner config_name
  { all_results := acc.all_results ++ [result]
    total_new_papers :=
      if result.success then acc.total_new_papers + result.new_papers
      else acc.total_new_papers
    successful_configs :=
      if result.success then acc.successful_configs + 1
      else acc.successful_configs
    runnerLog := acc.runnerLog ++ [config_name] }

/-- Observable outcome of one batch run: the boolean return value, the
profiles passed to the Profile Runner in order, and whether the Summary
Notifier was invoked. -/
structure BatchOutcome where
  ret : Bool
  runnerLog : List String
  notified : Bool
  deriving DecidableEq, Repr

/-- Embedding of `process_all_configs()` with the discovery result `sync_configs`, the
Profile Runner and the Summary Notifier as parameters. -/
def process_all_configs (sync_configs : List String)
    (runner : String → ProfileResult)
    (notifier : List ProfileResult → Bool) : BatchOutcome :=
  if sync_configs = [] then { ret := false, runnerLog := [], notified := false }
  else
    let acc := sync_configs.foldl (batchStep runner) ⟨[], 0, 0, []⟩
    if acc.total_new_papers > 0 then
      { ret := notifier acc.all_results, runnerLog := acc.runnerLog,
        notified := true }
    else
      { ret := true, runnerLog := acc.runnerLog, notified := false }

/-- Specification-side formula for the aggregator's total: the sum of
`new_papers` over the succeeded results. -/
def sumNewOverSucceeded : List ProfileResult → Int
  | [] => 0
  | r :: rs => (if r.success then r.new_papers else 0) + sumNewOverSucceeded rs

/-! ## Summary Notifier (`send_batch_summary_notification`) — per-topic
statistics construction. -/

/-- One row of `update_stats`. -/
structure TopicStats where
  new_count : Int
  total_count : Nat
  table_name : String
  deriving DecidableEq, Repr

/-- Expression `result["table_name"].replace("论文表", "").strip() or
result["research_area"]`: the topic key of a result. -/
def fieldNameOf (result : ProfileResult) : String :=
  let stripped := pyStrip (pyReplace result.table_name "论文表" "")
  if stripped = "" then result.research_area else stripped

/-- One iteration of the `for result in results` loop of
`send_batch_summary_notification` restricted to `update_stats`
(lines 312–321): a succeeded result with positive `new_papers` writes its
row under its derived topic key (`update_stats[field_name] = {...}`),
every other result contributes nothing. -/
def updateStatsStep (stats : List (String × TopicStats))
    (result : ProfileResult) : List (String × TopicStats) :=
  if result.success = true ∧ result.new_papers > 0 then
    pySetKey stats (fieldNameOf result)
      ⟨result.new_papers, result.total_papers, result.table_name⟩
  else stats

/-- The `update_stats` mapping built by `send_batch_summary_notification`:
only succeeded results with a positive `new_papers` contribute, keyed by
`fieldNameOf`; a later result with the same key overwrites the earlier
entry. -/
def buildUpdateStats (results : List ProfileResult) : List (String × TopicStats) :=
  results.foldl updateStatsStep []

/-! ## Auxiliary definitions used by statements -/

/-- The five legacy section names recognized by `merge_configs`. -/
def legacySectionKeys : List String :=
  ["search_config", "intelligent_matching_config", "download_config",
   "display_config", "output_config"]

/-- The integer scalar at `v[k]`, when present. -/
def Val.intAtKey (v : Val) (k : String) : Option Int :=
  match v.getKey k with
  | some (.vint n) => some n
  | _ => none

/-- The `OmegaConf.merge` lookup combinator: the value the merged mapping
associates with a key, from the base and override lookups. -/
def mergeLookup (b o : Option Val) : Option Val :=
  match o with
  | some ov =>
    match b with
    | some bv => some (omegaMergeVal bv ov)
    | none => some ov
  | none => b

/-- Qualification test of `send_batch_summary_notification` for topic key
`k`: a succeeded result with positive `new_papers` whose derived topic
label is `k`. -/
def topicHit (k : String) (r : ProfileResult) : Bool :=
  r.success && decide (r.new_papers > 0) && decide (fieldNameOf r = k)

/-- Specification-side description of one normalizer entry: entries that
are empty or all-whitespace, or whose trimmed form starts with `#`, are
dropped; the others are kept in trimmed form. -/
def keywordSurvivor (k : String) : Option String :=
  if pyStrip k = "" then none
  else if startsWithHash (pyStrip k) then none
  else some (pyStrip k)

/-! ## Concrete documents and worlds for witnesses and counterexamples -/

/-- A world whose profile document does not exist. -/
def wMissing : World :=
  ⟨fun _ => false, .ok .vnull, .ok [], .ok [], .ok ([], []), false, .ok .other⟩

/-- A minimal self-contained profile document (legacy shape: neither
`search_config` nor `user_profile`), with one interest keyword. -/
def cfgSimple : Val := .vdict [("interest_keywords", .vlist [.vstr "llm"])]

/-- A world that reaches the sync step and whose sync call raises. -/
def wSyncRaises : World :=
  ⟨fun _ => true, .ok cfgSimple, .ok [1, 2], .ok [], .ok ([7], []), true,
   .error "network error"⟩

/-- A world that reaches the sync step and whose sync call returns the
legacy boolean `True`. -/
def wSyncTrue : World :=
  ⟨fun _ => true, .ok cfgSimple, .ok [1, 2], .ok [], .ok ([7], []), true,
   .ok (.bool true)⟩

/-- A document with a `search_config` section that disagrees with its own
`search` section on the shared field `days`. -/
def cfgC2cex : Val :=
  .vdict [("search", .vdict [("days", .vint 3)]),
          ("search_config", .vdict [("days", .vint 5)])]

/-- A document with no legacy section. -/
def cfgC2wit : Val :=
  .vdict [("search", .vdict [("days", .vint 7)]),
          ("interest_keywords", .vlist [.vstr "llm"])]

/-- Base document whose `search.a` is a mapping with two fields. -/
def baseC5cex : Val :=
  .vdict [("search", .vdict [("a", .vdict [("x", .vint 1), ("y", .vint 2)])])]

/-- Override whose legacy `search_config.a` is a mapping with one field. -/
def overrideC5cex : Val :=
  .vdict [("search_config", .vdict [("a", .vdict [("x", .vint 5)])])]

/-- The merge result for the C5 counterexample pair. -/
def mC5cex : Val :=
  ((merge_configs baseC5cex overrideC5cex).toOption).getD .vnull

/-- Base document with a `download` section. -/
def baseC5wit : Val :=
  .vdict [("download", .vdict [("enabled", .vbool false), ("max_downloads", .vint 10)])]

/-- Override carrying the legacy `download_config` section and its own
canonical `download` section. -/
def overrideC5wit : Val :=
  .vdict [("download", .vdict [("enabled", .vbool false)]),
          ("download_config", .vdict [("enabled", .vbool true)])]

/-- The merge result for the C5 witness pair. -/
def mC5wit : Val :=
  ((merge_configs baseC5wit overrideC5wit).toOption).getD .vnull

/-- The legacy `download_config` section of `overrideC5wit`. -/
def legacyC5wit : Val := .vdict [("enabled", .vbool true)]

/-- The `download` section of the generic merge of the C5 witness pair. -/
def sectionC5wit : Val :=
  .vdict [("enabled", .vbool false), ("max_downloads", .vint 10)]

/-- A runner stub where every profile fails. -/
def stubFailRunner (config_name : String) : ProfileResult :=
  outerFailureResult config_name "boom"

/-- A runner stub where every profile succeeds with zero new papers. -/
def stubZeroRunner (config_name : String) : ProfileResult :=
  { config_name := config_name, success := true, error := none, new_papers := 0,
    total_papers := 4, research_area := "ra", table_name := "t", ranked_papers := [] }

/-- A notifier stub. -/
def stubNotifier (_results : List ProfileResult) : Bool := true

/-! # Lemmas -/

theorem trimList_idem (l : List Char) : trimList (trimList l) = trimList l := by
  have he : ∀ m : List Char,
      trimList m = List.rdropWhile Char.isWhitespace (List.dropWhile Char.isWhitespace m) :=
    fun _ => rfl
  rw [he, he]
  set ws := Char.isWhitespace with hws
  set m := List.dropWhile ws l with hm
  have hmfix : List.dropWhile ws m = m := by
    rw [hm]
    exact List.dropWhile_idempotent ws l
  have hfix : List.dropWhile ws (List.rdropWhile ws m) = List.rdropWhile ws m := by
    rcases hr : List.rdropWhile ws m with _ | ⟨a, s⟩
    · rfl
    · have hpre : a :: s <+: m := by
        rw [← hr]
        exact List.rdropWhile_prefix ws m
      obtain ⟨t, ht⟩ := hpre
      have hna : ¬ ws a = true := by
        intro hpa
        rw [← ht, List.cons_append] at hmfix
        rw [List.dropWhile_cons_of_pos hpa] at hmfix
        have hlen := congrArg List.length hmfix
        have hle := (List.dropWhile_suffix (l := s ++ t) ws).length_le
        rw [List.length_cons] at hlen
        omega
      simp [List.dropWhile_cons, hna]
  rw [hfix, List.rdropWhile_idempotent]

theorem pyStrip_idem (s : String) : pyStrip (pyStrip s) = pyStrip s := by
  show String.mk (trimList (trimList s.data)) = String.mk (trimList s.data)
  rw [trimList_idem]

theorem pyStrip_empty : pyStrip "" = "" := rfl

theorem filterKeywordsLoop_eq (ks : List String) :
    filterKeywordsLoop ks = ks.filterMap keywordSurvivor := by
  induction ks with
  | nil => rfl
  | cons k rest ih =>
    by_cases h1 : pyStrip k = ""
    · have hc : k = "" ∨ pyStrip k = "" := Or.inr h1
      simp [filterKeywordsLoop, hc, List.filterMap_cons, keywordSurvivor, h1, ih]
    · have h0 : ¬ k = "" := by
        intro hk
        rw [hk] at h1
        exact h1 pyStrip_empty
      have hc : ¬ (k = "" ∨ pyStrip k = "") := by
        intro h
        rcases h with h | h
        · exact h0 h
        · exact h1 h
      by_cases h2 : startsWithHash (pyStrip k) = true
      · simp [filterKeywordsLoop, hc, List.filterMap_cons, keywordSurvivor, h0, h1, h2, ih]
      · simp [filterKeywordsLoop, hc, List.filterMap_cons, keywordSurvivor, h0, h1, h2, ih]

theorem filterKeywords_eq (ks : List String) :
    filterKeywords ks = ks.filterMap keywordSurvivor := by
  rcases ks with _ | ⟨k, rest⟩
  · rfl
  · rw [filterKeywords, if_neg (by simp), filterKeywordsLoop_eq]

theorem keywordSurvivor_bind (k : String) :
    (keywordSurvivor k).bind keywordSurvivor = keywordSurvivor k := by
  by_cases h1 : pyStrip k = ""
  · simp [keywordSurvivor, h1]
  · by_cases h2 : startsWithHash (pyStrip k) = true
    · simp [keywordSurvivor, h1, h2]
    · simp only [keywordSurvivor, h1, h2, if_neg, if_false, Option.bind_some]
      simp [pyStrip_idem, h1, h2]

theorem pyGet_pySetKey {α : Type} (l : List (String × α)) (k k' : String) (v : α) :
    pyGet (pySetKey l k v) k' = if k = k' then some v else pyGet l k' := by
  induction l with
  | nil => simp [pySetKey, pyGet]
  | cons p rest ih =>
    obtain ⟨a, b⟩ := p
    by_cases hak : a = k
    · subst hak
      by_cases hak' : a = k'
      · subst hak'
        simp [pySetKey, pyGet]
      · simp [pySetKey, pyGet, hak']
    · by_cases hak' : a = k'
      · subst hak'
        have hk' : ¬ k = a := fun h => hak h.symm
        simp [pySetKey, pyGet, hak, hk']
      · simp [pySetKey, pyGet, hak, hak', ih]

theorem pySetKey_self {α : Type} (l : List (String × α)) (k : String) (v : α)
    (h : pyGet l k = some v) : pySetKey l k v = l := by
  induction l with
  | nil => simp [pyGet] at h
  | cons p rest ih =>
    obtain ⟨a, b⟩ := p
    by_cases hak : a = k
    · subst hak
      simp [pyGet] at h
      simp [pySetKey, h]
    · simp [pyGet, hak] at h
      simp [pySetKey, hak, ih h]

theorem pyGet_isSome_of_mem (l : List (String × Val)) (p : String × Val)
    (hp : p ∈ l) : (pyGet l p.1).isSome = true := by
  induction l with
  | nil => cases hp
  | cons q rest ih =>
    obtain ⟨a, b⟩ := q
    rcases List.mem_cons.mp hp with hp | hp
    · simp [hp, pyGet]
    · by_cases hak : a = p.1
      · simp [pyGet, hak]
      · simp [pyGet, hak, ih hp]

theorem entriesWF_cons (k : String) (v : Val) (rest : List (String × Val)) :
    entriesWF ((k, v) :: rest) =
      ((pyGet rest k).isNone && Val.wf v && entriesWF rest) := by
  rfl

theorem entriesWF_mem_wf (l : List (String × Val)) (p : String × Val)
    (hl : entriesWF l = true) (hp : p ∈ l) : Val.wf p.2 = true := by
  induction l with
  | nil => cases hp
  | cons q rest ih =>
    obtain ⟨a, b⟩ := q
    rw [entriesWF_cons] at hl
    simp only [Bool.and_eq_true] at hl
    rcases List.mem_cons.mp hp with hp | hp
    · rw [hp]
      exact hl.1.2
    · exact ih hl.2 hp

theorem entriesWF_mem_pyGet (l : List (String × Val)) (p : String × Val)
    (hl : entriesWF l = true) (hp : p ∈ l) : pyGet l p.1 = some p.2 := by
  induction l with
  | nil => cases hp
  | cons q rest ih =>
    obtain ⟨a, b⟩ := q
    rw [entriesWF_cons] at hl
    simp only [Bool.and_eq_true] at hl
    rcases List.mem_cons.mp hp with hp | hp
    · simp [hp, pyGet]
    · have hne : ¬ a = p.1 := by
        intro hak
        have hsome := pyGet_isSome_of_mem rest p hp
        rw [← hak] at hsome
        rw [Option.isNone_iff_eq_none.mp hl.1.1] at hsome
        cases hsome
      simp [pyGet, hne, ih hl.2 hp]

theorem omegaMergeEntries_fixed (o : List (String × Val)) :
    ∀ b : List (String × Val),
      (∀ p ∈ o, pyGet b p.1 = some p.2 ∧ omegaMergeVal p.2 p.2 = p.2) →
      omegaMergeEntries b o = b := by
  induction o with
  | nil => intro b _; rfl
  | cons p rest ih =>
    obtain ⟨k, v⟩ := p
    intro b hb
    have hhead := hb (k, v) (List.mem_cons_self _ _)
    show omegaMergeEntries
      (match pyGet b k with
       | some bv => pySetKey b k (omegaMergeVal bv v)
       | none => pySetKey b k v) rest = b
    rw [hhead.1]
    simp only [hhead.2]
    rw [pySetKey_self b k v hhead.1]
    exact ih b fun q hq => hb q (List.mem_cons_of_mem _ hq)

theorem omegaMergeVal_self_aux :
    ∀ (n : Nat) (v : Val), sizeOf v ≤ n → v.wf = true → omegaMergeVal v v = v := by
  intro n
  induction n with
  | zero =>
    intro v hv _
    exfalso
    cases v <;> simp at hv
  | succ n ih =>
    intro v hv hwf
    cases v with
    | vdict l =>
      have hwl : entriesWF l = true := hwf
      show Val.vdict (omegaMergeEntries l l) = Val.vdict l
      congr 1
      apply omegaMergeEntries_fixed
      intro p hp
      have hsz : sizeOf p.2 ≤ n := by
        have hlt := List.sizeOf_lt_of_mem hp
        have hp2 : sizeOf p.2 < sizeOf p := by
          obtain ⟨a, b⟩ := p
          simp only [Prod.mk.sizeOf_spec]
          omega
        have hdict : sizeOf (Val.vdict l) = 1 + sizeOf l := by simp
        omega
      refine ⟨entriesWF_mem_pyGet l p hwl hp, ?_⟩
      exact ih p.2 hsz (entriesWF_mem_wf l p hwl hp)
    | vlist l => rfl
    | vstr s => rfl
    | vint m => rfl
    | vflt q => rfl
    | vbool b => rfl
    | vnull => rfl

theorem omegaMergeVal_self (v : Val) (h : v.wf = true) : omegaMergeVal v v = v :=
  omegaMergeVal_self_aux (sizeOf v) v (Nat.le_refl _) h

theorem pyGet_omegaMergeEntries (o : List (String × Val)) :
    ∀ (b : List (String × Val)) (k : String), keysDistinct o = true →
      pyGet (omegaMergeEntries b o) k = mergeLookup (pyGet b k) (pyGet o k) := by
  induction o with
  | nil =>
    intro b k _
    show pyGet b k = mergeLookup (pyGet b k) none
    cases pyGet b k <;> rfl
  | cons p rest ih =>
    obtain ⟨k0, v0⟩ := p
    intro b k hdist
    simp only [keysDistinct, Bool.and_eq_true, Option.isNone_iff_eq_none] at hdist
    obtain ⟨hfresh, hrest⟩ := hdist
    simp only [omegaMergeEntries]
    cases hbk : pyGet b k0 with
    | some bv =>
      simp only [hbk]
      rw [ih _ k hrest, pyGet_pySetKey]
      by_cases hk : k0 = k
      · subst hk
        rw [hfresh]
        simp [pyGet, mergeLookup, hbk]
      · simp [pyGet, hk]
    | none =>
      simp only [hbk]
      rw [ih _ k hrest, pyGet_pySetKey]
      by_cases hk : k0 = k
      · subst hk
        rw [hfresh]
        simp [pyGet, mergeLookup, hbk]
      · simp [pyGet, hk]

theorem omegaMergeVal_right_nondict (s v : Val) (h : v.isDict = false) :
    omegaMergeVal s v = v := by
  cases v with
  | vdict l => simp [Val.isDict] at h
  | vstr x => cases s <;> rfl
  | vint x => cases s <;> rfl
  | vflt x => cases s <;> rfl
  | vbool x => cases s <;> rfl
  | vnull => cases s <;> rfl
  | vlist x => cases s <;> rfl

theorem getKey_omegaMergeVal_scalar (S L : Val) (k : String) (v : Val)
    (hdist : L.topDistinct = true) (hv : v.isDict = false)
    (hk : L.getKey k = some v) :
    (omegaMergeVal S L).getKey k = some v := by
  cases L with
  | vdict lL =>
    have hdl : keysDistinct lL = true := hdist
    have hkk : pyGet lL k = some v := hk
    cases S with
    | vdict lS =>
      show pyGet (omegaMergeEntries lS lL) k = some v
      rw [pyGet_omegaMergeEntries lL lS k hdl, hkk]
      cases hbk : pyGet lS k with
      | none => rfl
      | some bv =>
        show some (omegaMergeVal bv v) = some v
        rw [omegaMergeVal_right_nondict bv v hv]
    | vstr x => exact hk
    | vint x => exact hk
    | vflt x => exact hk
    | vbool x => exact hk
    | vnull => exact hk
    | vlist x => exact hk
  | vstr x => simp [Val.getKey] at hk
  | vint x => simp [Val.getKey] at hk
  | vflt x => simp [Val.getKey] at hk
  | vbool x => simp [Val.getKey] at hk
  | vnull => simp [Val.getKey] at hk
  | vlist x => simp [Val.getKey] at hk

theorem setKey_getKey (m : Val) (k gk : String) (w : Val) :
    (m.setKey k w).getKey gk =
      if m.isDict = true ∧ k = gk then some w else m.getKey gk := by
  cases m with
  | vdict l =>
    by_cases hk : k = gk
    · simp [Val.setKey, Val.getKey, Val.isDict, pyGet_pySetKey, hk]
    · simp [Val.setKey, Val.getKey, Val.isDict, pyGet_pySetKey, hk]
  | vstr x => simp [Val.setKey, Val.getKey, Val.isDict]
  | vint x => simp [Val.setKey, Val.getKey, Val.isDict]
  | vflt x => simp [Val.setKey, Val.getKey, Val.isDict]
  | vbool x => simp [Val.setKey, Val.getKey, Val.isDict]
  | vnull => simp [Val.setKey, Val.getKey, Val.isDict]
  | vlist x => simp [Val.setKey, Val.getKey, Val.isDict]

theorem getKey_isDict (m : Val) (k : String) (v : Val)
    (h : m.getKey k = some v) : m.isDict = true := by
  cases m <;> simp [Val.getKey, Val.isDict] at h ⊢

theorem legacyStep_getKey_ne (kc m : Val) (p : String × String) (gk : String)
    (hne : ¬ p.2 = gk) :
    (legacyStep kc m p).getKey gk = m.getKey gk := by
  unfold legacyStep
  cases hkc : kc.getKey p.1 with
  | none => rfl
  | some ov =>
    simp only []
    by_cases hhk : m.hasKey p.2 = true
    · simp only [hhk, if_true]
      rw [setKey_getKey]
      simp [hne]
    · simp only [hhk, if_false, Bool.false_eq_true]
      rw [setKey_getKey, setKey_getKey]
      simp [hne]

theorem legacyStep_getKey_self (kc m : Val) (p : String × String) (S ov : Val)
    (hkc : kc.getKey p.1 = some ov) (hm : m.getKey p.2 = some S) :
    (legacyStep kc m p).getKey p.2 = some (omegaMergeVal S ov) := by
  unfold legacyStep
  rw [hkc]
  simp only []
  have hhk : m.hasKey p.2 = true := by simp [Val.hasKey, hm]
  have hgd : m.getD p.2 (.vdict []) = S := by simp [Val.getD, hm]
  simp only [hhk, if_true, hgd]
  rw [setKey_getKey]
  simp [getKey_isDict m p.2 S hm]

theorem afterRetrieval_trace (w : World) (name : String) (fcfg : Val)
    (kw : Keywords) (papers : List Nat) :
    (afterRetrieval w name fcfg kw papers).2 = [] ∨
    (afterRetrieval w name fcfg kw papers).2 =
      [Event.setBatchMode, Event.syncCall, Event.clearBatchMode] := by
  by_cases hp : papers = []
  · left; simp [afterRetrieval, hp]
  · by_cases hkw : kw.interest ≠ [] ∨ kw.exclude ≠ []
    · rcases hrank : w.rankOutcome with e | ⟨ranked, ex⟩
      · left; simp [afterRetrieval, hp, hkw, hrank]
      · by_cases hsy : ranked ≠ [] ∧ w.feishuAvailable = true
        · rcases hso : w.syncOutcome with e | r
          · right; simp [afterRetrieval, hp, hkw, hrank, hsy, hso]
          · right; simp [afterRetrieval, hp, hkw, hrank, hsy, hso]
        · left; simp [afterRetrieval, hp, hkw, hrank, hsy]
    · left; simp [afterRetrieval, hp, hkw]

theorem process_shape (w : World) (name : String) :
    (process_single_config w name).2 = [] ∨
    ∃ fcfg papers,
      process_single_config w name =
        afterRetrieval w name fcfg (load_keywords_from_config fcfg) papers := by
  by_cases hf : w.fileExists ("conf/" ++ name ++ ".yaml") = false
  · left; simp [process_single_config, hf]
  · rcases hl : w.loadYaml with e | cfg
    · left; simp [process_single_config, hf, hl]
    · rcases hm : effectiveConfig cfg with e | fcfg
      · left; simp [process_single_config, hf, hl, hm]
      · by_cases hdr :
          (((fcfg.getD "search" (.vdict [])).getD "date_range" (.vdict [])).getD
            "enabled" (.vbool false)).truthy = true
        · by_cases hsd :
            ((fcfg.getD "search" (.vdict [])).getD "date_range"
              (.vdict [])).getStrD "start_date" "" = ""
          · left; simp [process_single_config, hf, hl, hm, hdr, hsd]
          · rcases hp : w.dateRangePapers with e | papers
            · left; simp [process_single_config, hf, hl, hm, hdr, hsd, hp]
            · right
              exact ⟨fcfg, papers,
                by simp [process_single_config, hf, hl, hm, hdr, hsd, hp]⟩
        · rcases hp : w.recentPapers with e | papers
          · left; simp [process_single_config, hf, hl, hm, hdr, hp]
          · right
            exact ⟨fcfg, papers,
              by simp [process_single_config, hf, hl, hm, hdr, hp]⟩

theorem process_single_config_trace (w : World) (name : String) :
    (process_single_config w name).2 = [] ∨
    (process_single_config w name).2 =
      [Event.setBatchMode, Event.syncCall, Event.clearBatchMode] := by
  rcases process_shape w name with h | ⟨fcfg, papers, h⟩
  · exact Or.inl h
  · rw [h]
    exact afterRetrieval_trace _ _ _ _ _

theorem afterRetrieval_sync_error (w : World) (name : String) (fcfg : Val)
    (kw : Keywords) (papers : List Nat) (e : String)
    (hcall : (afterRetrieval w name fcfg kw papers).2 ≠ [])
    (hsync : w.syncOutcome = .error e) :
    (afterRetrieval w name fcfg kw papers).1.success = true ∧
    (afterRetrieval w name fcfg kw papers).1.new_papers = 0 := by
  by_cases hp : papers = []
  · exact absurd (by simp [afterRetrieval, hp]) hcall
  · by_cases hkw : kw.interest ≠ [] ∨ kw.exclude ≠ []
    · rcases hrank : w.rankOutcome with e' | ⟨ranked, ex⟩
      · exact absurd (by simp [afterRetrieval, hp, hkw, hrank]) hcall
      · by_cases hsy : ranked ≠ [] ∧ w.feishuAvailable = true
        · simp [afterRetrieval, hp, hkw, hrank, hsy, hsync]
        · exact absurd (by simp [afterRetrieval, hp, hkw, hrank, hsy]) hcall
    · exact absurd (by simp [afterRetrieval, hp, hkw]) hcall

theorem afterRetrieval_sync_true (w : World) (name : String) (fcfg : Val)
    (kw : Keywords) (papers : List Nat)
    (hcall : (afterRetrieval w name fcfg kw papers).2 ≠ [])
    (hsync : w.syncOutcome = .ok (.bool true)) :
    (afterRetrieval w name fcfg kw papers).1.success = true ∧
    (afterRetrieval w name fcfg kw papers).1.new_papers = 1 := by
  by_cases hp : papers = []
  · exact absurd (by simp [afterRetrieval, hp]) hcall
  · by_cases hkw : kw.interest ≠ [] ∨ kw.exclude ≠ []
    · rcases hrank : w.rankOutcome with e' | ⟨ranked, ex⟩
      · exact absurd (by simp [afterRetrieval, hp, hkw, hrank]) hcall
      · by_cases hsy : ranked ≠ [] ∧ w.feishuAvailable = true
        · simp [afterRetrieval, hp, hkw, hrank, hsy, hsync, pyIsInstanceInt, pyIntValue]
        · exact absurd (by simp [afterRetrieval, hp, hkw, hrank, hsy]) hcall
    · exact absurd (by simp [afterRetrieval, hp, hkw]) hcall

/-! # Claims -/

/-- C2 (amended): merging a well-formed document against itself is
idempotent whenever the document carries none of the five legacy
`*_config` sections; with a legacy section that disagrees with its
canonical counterpart, the legacy content overwrites the canonical
section and the result differs from the input (see the counterexample). -/
theorem claim_C2_amended (c : Val) (hwf : c.wf = true)
    (hleg : ∀ k ∈ legacySectionKeys, c.hasKey k = false) :
    merge_configs c c = .ok c := by
  have hget : ∀ k ∈ legacySectionKeys, c.getKey k = none := by
    intro k hk
    have hfalse := hleg k hk
    cases h' : c.getKey k with
    | none => rfl
    | some v =>
      rw [Val.hasKey, h'] at hfalse
      simp at hfalse
  have h0 := hget "search_config" (by simp [legacySectionKeys])
  have h1 := hget "intelligent_matching_config" (by simp [legacySectionKeys])
  have h2 := hget "download_config" (by simp [legacySectionKeys])
  have h3 := hget "display_config" (by simp [legacySectionKeys])
  have h4 := hget "output_config" (by simp [legacySectionKeys])
  simp only [merge_configs, omegaMergeVal_self c hwf, h0, h1, h2, h3, h4,
    configMappings, List.foldl, legacyStep, Except.map]

/-- C2 witness: a concrete legacy-free document merges to itself. -/
theorem claim_C2_witness :
    Val.wf cfgC2wit = true ∧
    (∀ k ∈ legacySectionKeys, cfgC2wit.hasKey k = false) ∧
    merge_configs cfgC2wit cfgC2wit = Except.ok cfgC2wit :=
  ⟨by decide, by decide, claim_C2_amended cfgC2wit (by decide) (by decide)⟩

/-- C2 counterexample: for the document whose `search_config.days = 5`
disagrees with its own `search.days = 3`, `merge_configs(c, c)` rewrites
`search.days` to `5` and is therefore not the identity — the claimed
idempotence fails on documents with a legacy section. -/
theorem claim_C2_counterexample :
    merge_configs cfgC2cex cfgC2cex ≠ Except.ok cfgC2cex := by
  intro h
  have h2 := congrArg (fun e : Except String Val =>
    (e.toOption.getD .vnull).intAt "search" "days") h
  exact absurd h2 (by decide)

/-- C5 (amended): when the override carries a legacy section (any of the
five), the merged result's canonical section is the legacy section merged
over the generically-merged section, and for every shared field whose
legacy value is not itself a mapping the legacy value wins outright —
over both the base defaults and the override's own canonical section.
(Mapping-valued shared fields are instead merged recursively; see the
counterexample.) -/
theorem legacyChain_getKey_search (override m0 : Val) :
    (List.foldl (legacyStep override) m0 configMappings).getKey "search" =
      m0.getKey "search" := by
  simp only [configMappings, List.foldl]
  rw [legacyStep_getKey_ne override _ ("output_config", "output") "search" (by decide),
    legacyStep_getKey_ne override _ ("display_config", "display") "search" (by decide),
    legacyStep_getKey_ne override _ ("download_config", "download") "search" (by decide),
    legacyStep_getKey_ne override _
      ("intelligent_matching_config", "intelligent_matching") "search" (by decide)]

theorem legacyChain_getKey (override m0 : Val) (ck gk : String) (L S : Val)
    (hpair : (ck, gk) ∈ configMappings)
    (hL : override.getKey ck = some L)
    (hm0 : m0.getKey gk = some S) :
    (List.foldl (legacyStep override) m0 configMappings).getKey gk =
      some (omegaMergeVal S L) := by
  simp only [configMappings, List.mem_cons, List.not_mem_nil, or_false] at hpair
  simp only [configMappings, List.foldl]
  rcases hpair with h | h | h | h <;> rw [Prod.mk.injEq] at h <;>
    obtain ⟨hck, hgk⟩ := h <;> subst hck <;> subst hgk
  · rw [legacyStep_getKey_ne override _ ("output_config", "output") _ (by decide),
      legacyStep_getKey_ne override _ ("display_config", "display") _ (by decide),
      legacyStep_getKey_ne override _ ("download_config", "download") _ (by decide)]
    exact legacyStep_getKey_self override m0 _ S L hL hm0
  · rw [legacyStep_getKey_ne override _ ("output_config", "output") _ (by decide),
      legacyStep_getKey_ne override _ ("display_config", "display") _ (by decide)]
    refine legacyStep_getKey_self override _ _ S L hL ?_
    rw [legacyStep_getKey_ne override _
      ("intelligent_matching_config", "intelligent_matching") _ (by decide)]
    exact hm0
  · rw [legacyStep_getKey_ne override _ ("output_config", "output") _ (by decide)]
    refine legacyStep_getKey_self override _ _ S L hL ?_
    rw [legacyStep_getKey_ne override _ ("download_config", "download") _ (by decide),
      legacyStep_getKey_ne override _
        ("intelligent_matching_config", "intelligent_matching") _ (by decide)]
    exact hm0
  · refine legacyStep_getKey_self override _ _ S L hL ?_
    rw [legacyStep_getKey_ne override _ ("display_config", "display") _ (by decide),
      legacyStep_getKey_ne override _ ("download_config", "download") _ (by decide),
      legacyStep_getKey_ne override _
        ("intelligent_matching_config", "intelligent_matching") _ (by decide)]
    exact hm0

/-- C5 (amended): when the override carries a legacy section (any of the
five), the merged result's canonical section is the legacy section merged
over the generically-merged section, and every shared field whose legacy
value is not itself a mapping carries the legacy value outright — winning
over both the base defaults and the override's own canonical section.
(Mapping-valued shared fields are instead merged recursively; see the
counterexample.) -/
theorem claim_C5_amended (ck gk : String) (base override L S m : Val)
    (k : String) (v : Val)
    (hmem : (ck, gk) ∈ ("search_config", "search") :: configMappings)
    (hL : override.getKey ck = some L)
    (hS : (omegaMergeVal base override).getKey gk = some S)
    (hok : merge_configs base override = .ok m)
    (hdist : L.topDistinct = true)
    (hk : L.getKey k = some v)
    (hv : v.isDict = false) :
    m.getKey gk = some (omegaMergeVal S L) ∧
    (omegaMergeVal S L).getKey k = some v := by
  refine ⟨?_, getKey_omegaMergeVal_scalar S L k v hdist hv hk⟩
  rcases List.mem_cons.mp hmem with hmem | hmem
  · rw [Prod.mk.injEq] at hmem
    obtain ⟨hck, hgk⟩ := hmem
    subst hck
    subst hgk
    simp only [merge_configs, hL, hS, Except.map, Except.ok.injEq] at hok
    rw [← hok, legacyChain_getKey_search, setKey_getKey]
    simp [getKey_isDict _ _ _ hS]
  · cases hsc : override.getKey "search_config" with
    | none =>
      simp only [merge_configs, hsc, Except.map, Except.ok.injEq] at hok
      rw [← hok]
      exact legacyChain_getKey override _ ck gk L S hmem hL hS
    | some sc =>
      cases hms : (omegaMergeVal base override).getKey "search" with
      | none =>
        simp only [merge_configs, hsc, hms, Except.map] at hok
        simp at hok
      | some s0 =>
        simp only [merge_configs, hsc, hms, Except.map, Except.ok.injEq] at hok
        rw [← hok]
        refine legacyChain_getKey override _ ck gk L S hmem hL ?_
        have hgkne : ¬ "search" = gk := by
          simp only [configMappings, List.mem_cons, List.not_mem_nil,
            or_false] at hmem
          rcases hmem with h | h | h | h <;> rw [Prod.mk.injEq] at h <;>
            rw [h.2] <;> decide
        rw [setKey_getKey, if_neg (fun hcon => hgkne hcon.2)]
        exact hS

/-- C5 witness: the legacy `download_config.enabled = true` overrides
both the base default and the override's own `download.enabled = false`. -/
theorem claim_C5_witness :
    mC5wit.getKey "download" =
      some (omegaMergeVal sectionC5wit legacyC5wit) ∧
    (omegaMergeVal sectionC5wit legacyC5wit).getKey "enabled" =
      some (.vbool true) :=
  claim_C5_amended "download_config" "download" baseC5wit overrideC5wit
    legacyC5wit sectionC5wit mC5wit "enabled" (.vbool true)
    (by decide) rfl rfl rfl rfl rfl rfl

/-- C5 counterexample: when the shared field is itself a mapping
(`search_config.a` vs `search.a`), the merged canonical section does not
carry the legacy section's value for that field — the two mappings are
merged recursively instead (the merged `a` keeps `y = 2` from the base,
which the legacy `a` does not contain), refuting the claim as stated. -/
theorem claim_C5_counterexample :
    merge_configs baseC5cex overrideC5cex = Except.ok mC5cex ∧
    (mC5cex.getD "search" .vnull).getKey "a" ≠
      (overrideC5cex.getD "search_config" .vnull).getKey "a" := by
  refine ⟨rfl, ?_⟩
  intro h
  have h2 := congrArg (fun o : Option Val => (o.getD Val.vnull).intAtKey "y") h
  exact absurd h2 (by decide)

/-- C4: on every run of `process_single_config`, either the sync step is
not performed and the trace of environment/sync events is empty, or the
trace is exactly `BATCH_MODE := set`, the sync call, `BATCH_MODE :=
cleared` — so the toggle is set immediately before the call, cleared
exactly once immediately after on every exit path of the step (normal
return, caught sync error, raising sync call), and replaying the trace
leaves the toggle unset whatever its initial state. -/
theorem claim_C4 (w : World) (name : String) :
    (process_single_config w name).2 = [] ∨
    ((process_single_config w name).2 =
       [Event.setBatchMode, Event.syncCall, Event.clearBatchMode] ∧
     ∀ init : Bool, replayBatchMode init (process_single_config w name).2 = false) := by
  rcases process_single_config_trace w name with h | h
  · exact Or.inl h
  · refine Or.inr ⟨h, fun init => ?_⟩
    rw [h]
    rfl

/-- C3: whenever the runner performs the sync step (the event trace is
non-empty, i.e. ranked papers exist and the sync module is available) and
the sync collaborator call raises, the exception is caught and the
profile still succeeds with `new_papers = 0`. -/
theorem claim_C3 (w : World) (name : String) (e : String)
    (hcall : (process_single_config w name).2 ≠ [])
    (hsync : w.syncOutcome = .error e) :
    (process_single_config w name).1.success = true ∧
    (process_single_config w name).1.new_papers = 0 := by
  rcases process_shape w name with h | ⟨fcfg, papers, h⟩
  · exact absurd h hcall
  · rw [h] at hcall ⊢
    exact afterRetrieval_sync_error w name fcfg _ papers e hcall hsync

/-- C3 witness: a concrete world that reaches the sync step with a
raising sync call yields `success = true` and `new_papers = 0`. -/
theorem claim_C3_witness :
    (process_single_config wSyncRaises "sync_a").2 ≠ [] ∧
    wSyncRaises.syncOutcome = .error "network error" ∧
    (process_single_config wSyncRaises "sync_a").1.success = true ∧
    (process_single_config wSyncRaises "sync_a").1.new_papers = 0 := by
  refine ⟨by decide, rfl, ?_⟩
  exact claim_C3 wSyncRaises "sync_a" "network error" (by decide) rfl

/-- C10: when the sync collaborator returns the legacy boolean `True`,
the `isinstance(sync_result, int)` branch is taken (Python booleans are
integers) and `max(True, 0)` is `1`, so the profile reports `success =
true` and `new_papers = 1` — not the `0` the dedicated `sync_result is
True` branch would have produced. -/
theorem claim_C10 (w : World) (name : String)
    (hcall : (process_single_config w name).2 ≠ [])
    (hsync : w.syncOutcome = .ok (.bool true)) :
    (process_single_config w name).1.success = true ∧
    (process_single_config w name).1.new_papers = 1 := by
  rcases process_shape w name with h | ⟨fcfg, papers, h⟩
  · exact absurd h hcall
  · rw [h] at hcall ⊢
    exact afterRetrieval_sync_true w name fcfg _ papers hcall hsync

/-- C10 witness: a concrete world whose sync call returns `True` yields
`new_papers = 1`. -/
theorem claim_C10_witness :
    (process_single_config wSyncTrue "sync_a").2 ≠ [] ∧
    wSyncTrue.syncOutcome = .ok (.bool true) ∧
    (process_single_config wSyncTrue "sync_a").1.success = true ∧
    (process_single_config wSyncTrue "sync_a").1.new_papers = 1 := by
  refine ⟨by decide, rfl, ?_⟩
  exact claim_C10 wSyncTrue "sync_a" (by decide) rfl

/-- C1 (amended): a profile whose document path does not exist yields,
without raising, a failure result with `success = false`, `new_papers =
0`, `total_papers = 0`, an empty representative list, the "config file
not found" error — and `research_area` and `table_name` both equal to the
empty string, not derived from the profile identifier. -/
theorem claim_C1_amended (w : World) (name : String)
    (h : w.fileExists ("conf/" ++ name ++ ".yaml") = false) :
    process_single_config w name =
      ({ config_name := name, success := false,
         error := some ("配置文件不存在: " ++ ("conf/" ++ name ++ ".yaml")),
         new_papers := 0, total_papers := 0, research_area := "",
         table_name := "", ranked_papers := [] }, []) := by
  simp [process_single_config, h]

/-- C1 witness: concrete missing-document run. -/
theorem claim_C1_witness :
    wMissing.fileExists ("conf/" ++ "sync_robotics" ++ ".yaml") = false ∧
    process_single_config wMissing "sync_robotics" =
      ({ config_name := "sync_robotics", success := false,
         error := some ("配置文件不存在: " ++ ("conf/" ++ "sync_robotics" ++ ".yaml")),
         new_papers := 0, total_papers := 0, research_area := "",
         table_name := "", ranked_papers := [] }, []) :=
  ⟨rfl, claim_C1_amended wMissing "sync_robotics" rfl⟩

/-- C1 counterexample: for the missing-document profile `sync_robotics`
the returned `research_area` is the empty string, not the identifier with
the `sync_` token stripped, refuting the claim as stated. -/
theorem claim_C1_counterexample :
    (process_single_config wMissing "sync_robotics").1.research_area ≠
      pyReplace "sync_robotics" "sync_" "" := by
  decide

/-- C6: `_filter_keywords` returns exactly the trimmed forms of the
entries that are neither empty nor all-whitespace and whose trimmed form
does not start with `#`, preserving relative order with no deduplication
(the `filterMap` characterization); the empty input yields the empty
list; and the normalizer is idempotent. -/
theorem claim_C6 (ks : List String) :
    filterKeywords ks = ks.filterMap keywordSurvivor ∧
    filterKeywords [] = [] ∧
    filterKeywords (filterKeywords ks) = filterKeywords ks := by
  refine ⟨filterKeywords_eq ks, rfl, ?_⟩
  rw [filterKeywords_eq, filterKeywords_eq, List.filterMap_filterMap]
  exact List.filterMap_congr fun k _ => keywordSurvivor_bind k

theorem batchLoop_log (runner : String → ProfileResult) (configs : List String) :
    ∀ acc : BatchAcc,
      (configs.foldl (batchStep runner) acc).runnerLog = acc.runnerLog ++ configs := by
  induction configs with
  | nil => intro acc; simp
  | cons c rest ih =>
    intro acc
    rw [List.foldl_cons, ih]
    simp [batchStep]

theorem batchLoop_results (runner : String → ProfileResult) (configs : List String) :
    ∀ acc : BatchAcc,
      (configs.foldl (batchStep runner) acc).all_results =
        acc.all_results ++ configs.map runner := by
  induction configs with
  | nil => intro acc; simp
  | cons c rest ih =>
    intro acc
    rw [List.foldl_cons, ih]
    simp [batchStep]

theorem batchLoop_total (runner : String → ProfileResult) (configs : List String) :
    ∀ acc : BatchAcc,
      (configs.foldl (batchStep runner) acc).total_new_papers =
        acc.total_new_papers + sumNewOverSucceeded (configs.map runner) := by
  induction configs with
  | nil => intro acc; simp [sumNewOverSucceeded]
  | cons c rest ih =>
    intro acc
    rw [List.foldl_cons, ih]
    by_cases h : (runner c).success = true
    · simp [batchStep, sumNewOverSucceeded, h]
      omega
    · simp [batchStep, sumNewOverSucceeded, h]

theorem sumNew_all_fail (rs : List ProfileResult)
    (h : ∀ r ∈ rs, r.success = false) : sumNewOverSucceeded rs = 0 := by
  induction rs with
  | nil => rfl
  | cons r rest ih =>
    have hr := h r (List.mem_cons_self _ _)
    rw [sumNewOverSucceeded, hr]
    simp [ih fun q hq => h q (List.mem_cons_of_mem _ hq)]

/-- C7: the Batch Aggregator hands every discovered profile to the
Profile Runner exactly once, in discovery order, whatever the runner
returns (so an all-failing batch still processes all K profiles); an
empty discovery performs no runner invocation, skips notification and
returns failure; and an all-failing batch never invokes the notifier. -/
theorem claim_C7 (configs : List String) (runner : String → ProfileResult)
    (notifier : List ProfileResult → Bool) :
    (process_all_configs configs runner notifier).runnerLog = configs ∧
    (configs = [] →
      process_all_configs configs runner notifier =
        { ret := false, runnerLog := [], notified := false }) ∧
    ((∀ r ∈ configs.map runner, r.success = false) →
      (process_all_configs configs runner notifier).notified = false) := by
  by_cases hc : configs = []
  · subst hc
    exact ⟨rfl, fun _ => rfl, fun _ => rfl⟩
  · have hlog := batchLoop_log runner configs ⟨[], 0, 0, []⟩
    have htot := batchLoop_total runner configs ⟨[], 0, 0, []⟩
    refine ⟨?_, fun h => absurd h hc, ?_⟩
    · unfold process_all_configs
      rw [if_neg hc]
      by_cases ht :
          (configs.foldl (batchStep runner) ⟨[], 0, 0, []⟩).total_new_papers > 0
      · simp [ht, hlog]
      · simp [ht, hlog]
    · intro hfail
      have hzero : sumNewOverSucceeded (configs.map runner) = 0 :=
        sumNew_all_fail _ hfail
      unfold process_all_configs
      rw [if_neg hc]
      have ht :
          ¬ (configs.foldl (batchStep runner) ⟨[], 0, 0, []⟩).total_new_papers > 0 := by
        rw [htot, hzero]
        simp
      simp [ht]

/-- C7 witness: an empty discovery returns failure without invoking the
runner; a two-profile all-failing batch still logs both runner calls in
order and never notifies. -/
theorem claim_C7_witness :
    (process_all_configs [] stubFailRunner stubNotifier).ret = false ∧
    (process_all_configs ["sync_a", "sync_b"] stubFailRunner
        stubNotifier).runnerLog = ["sync_a", "sync_b"] ∧
    (process_all_configs ["sync_a", "sync_b"] stubFailRunner
        stubNotifier).notified = false := by
  refine ⟨?_, (claim_C7 ["sync_a", "sync_b"] stubFailRunner stubNotifier).1,
    (claim_C7 ["sync_a", "sync_b"] stubFailRunner stubNotifier).2.2 (by decide)⟩
  rw [(claim_C7 [] stubFailRunner stubNotifier).2.1 rfl]

/-- C8: for a non-empty batch the Summary Notifier is invoked iff the
sum of `new_papers` over the succeeded profiles is positive; when that
total is zero the notifier is never invoked and the run still returns
`true`. -/
theorem claim_C8 (configs : List String) (runner : String → ProfileResult)
    (notifier : List ProfileResult → Bool) (hne : configs ≠ []) :
    ((process_all_configs configs runner notifier).notified = true ↔
      sumNewOverSucceeded (configs.map runner) > 0) ∧
    (sumNewOverSucceeded (configs.map runner) = 0 →
      (process_all_configs configs runner notifier).ret = true ∧
      (process_all_configs configs runner notifier).notified = false) := by
  have htot := batchLoop_total runner configs ⟨[], 0, 0, []⟩
  simp only [Int.zero_add] at htot
  unfold process_all_configs
  rw [if_neg hne]
  by_cases ht :
      (configs.foldl (batchStep runner) ⟨[], 0, 0, []⟩).total_new_papers > 0
  · have hpos : sumNewOverSucceeded (configs.map runner) > 0 := by
      rw [← htot]
      exact ht
    constructor
    · simp [ht, hpos]
    · intro hzero
      rw [hzero] at hpos
      exact absurd hpos (by simp)
  · have hnpos : ¬ sumNewOverSucceeded (configs.map runner) > 0 := by
      rw [← htot]
      exact ht
    constructor
    · simp [ht, hnpos]
    · intro _
      simp [ht]

/-- C8 witness: a one-profile batch whose profile succeeds with zero new
papers skips the notifier and still returns `true`. -/
theorem claim_C8_witness :
    (["sync_a"] : List String) ≠ [] ∧
    sumNewOverSucceeded (["sync_a"].map stubZeroRunner) = 0 ∧
    (process_all_configs ["sync_a"] stubZeroRunner stubNotifier).ret = true ∧
    (process_all_configs ["sync_a"] stubZeroRunner stubNotifier).notified = false := by
  refine ⟨by decide, by decide, ?_⟩
  exact (claim_C8 ["sync_a"] stubZeroRunner stubNotifier (by decide)).2 (by decide)

theorem buildUpdateStats_aux (rs : List ProfileResult) :
    ∀ (stats : List (String × TopicStats)) (k : String),
      pyGet (rs.foldl updateStatsStep stats) k =
        match rs.reverse.find? (topicHit k) with
        | some r => some ⟨r.new_papers, r.total_papers, r.table_name⟩
        | none => pyGet stats k := by
  induction rs with
  | nil => intro stats k; rfl
  | cons r rest ih =>
    intro stats k
    rw [List.foldl_cons, ih]
    rw [List.reverse_cons, List.find?_append]
    cases hrest : rest.reverse.find? (topicHit k) with
    | some r' => rfl
    | none =>
      simp only [Option.none_or]
      by_cases hs : r.success = true ∧ r.new_papers > 0
      · by_cases hf : fieldNameOf r = k
        · have hq : topicHit k r = true := by
            simp [topicHit, hs.1, hs.2, hf]
          simp [hq, updateStatsStep, hs, hf, pyGet_pySetKey]
        · have hq : topicHit k r = false := by
            simp [topicHit, hf]
          simp [hq, updateStatsStep, hs, pyGet_pySetKey, hf]
      · have hq : topicHit k r = false := by
          rcases Decidable.not_and_iff_or_not.mp hs with h | h
          · simp [topicHit, h]
          · simp [topicHit, h]
        simp [hq, updateStatsStep, hs]

/-- C9: the per-topic statistics of `send_batch_summary_notification` at
any topic key are exactly the `{new_count, total_count, table_name}` row
of the **last** result in processing order that succeeded with positive
`new_papers` and whose derived topic label (suffix-token-stripped table
label, falling back to the research area when stripping empties it)
equals that key — so only qualifying results contribute, colliding labels
resolve last-write-wins, and values are never summed. -/
theorem claim_C9 (results : List ProfileResult) (k : String) :
    pyGet (buildUpdateStats results) k =
      match results.reverse.find? (topicHit k) with
      | some r => some ⟨r.new_papers, r.total_papers, r.table_name⟩
      | none => none := by
  rw [buildUpdateStats, buildUpdateStats_aux]
  cases results.reverse.find? (topicHit k) <;> rfl

end ArxivHydra
